import Mathlib

/-!
Verification of the cramwell document ingestion, chunking and retrieval
pipeline (backend/src/cramwell).  Python strings are modelled as `List Char`
(only ASCII behaviour of `lower` / `isalnum` / `isspace` is relied on by the
properties below).  The tiktoken tokenizer is modelled as an abstract token
counting function `tc : Str → Nat` standing for
`len(encoding.encode(s))`; external backends (Pinecone, Supabase, OpenAI)
are modelled from the spec's collaborator interfaces where noted.
-/

namespace Cramwell

/-- Python strings, modelled as lists of characters. -/
abbrev Str : Type := List Char

/-- Python `s.lower()` (ASCII). -/
def lowerStr (s : Str) : Str := s.map Char.toLower

/-- Python `s.strip()`: drop leading and trailing whitespace. -/
def stripStr (s : Str) : Str :=
  ((s.dropWhile Char.isWhitespace).reverse.dropWhile Char.isWhitespace).reverse

/-- Python `pat in s` (substring containment). -/
def isSubstr (pat s : Str) : Bool :=
  (List.tails s).any (fun t => List.isPrefixOf pat t)

/-- Python `s.split()`: split on whitespace runs, dropping empty pieces. -/
def splitWords (s : Str) : List Str :=
  (s.splitOnP Char.isWhitespace).filter (fun w => ¬ w.isEmpty)

/-- Python `" ".join(parts)`. -/
def joinSpace (parts : List Str) : Str :=
  List.intercalate [' '] parts

/-- Combined token count of a list of pieces, as the code sums it
(one `encoding.encode` call per piece). -/
def sumTokens (tc : Str → Nat) (parts : List Str) : Nat :=
  (parts.map tc).sum

/- ------------------------------------------------------------------
utils.is_handwritten_or_poor_extraction (utils.py lines 215-241)
------------------------------------------------------------------ -/

/-- The handwriting / scan indicator keywords of
`is_handwritten_or_poor_extraction` (utils.py lines 223-226). -/
def handwrittenIndicators : List Str :=
  ["handwritten", "handwriting", "scanned", "image", "photo",
   "unreadable", "illegible", "blurry", "fuzzy"].map (fun s => s.data)

/-- Count of characters that are neither alphanumeric nor whitespace
(utils.py line 236: `not c.isalnum() and not c.isspace()`). -/
def nonAlnumCount (s : Str) : Nat :=
  s.countP (fun c => ¬ (c.isAlphanum ∨ c.isWhitespace))

/-- utils.is_handwritten_or_poor_extraction, lines 215-241.  The float
comparison `ratio > 0.3` with `ratio = non_alphanumeric / len(text)` is
modelled as the exact rational comparison `10 * non_alphanumeric > 3 * len`. -/
def is_handwritten_or_poor_extraction (text : Str) : Bool :=
  if text.isEmpty ∨ (stripStr text).length < 50 then
    true
  else if handwrittenIndicators.any (fun k => isSubstr k (lowerStr text)) then
    true
  else if text.length > 100 ∧ 10 * nonAlnumCount text > 3 * text.length then
    true
  else
    false

/- ------------------------------------------------------------------
utils.smart_chunk_text (utils.py lines 774-913), tokenizer-available path.
`tc` abstracts `len(encoding.encode(·))` for text-embedding-3-small.
------------------------------------------------------------------ -/

/-- `re.split` at `(?<=[.!?])\s+`: the accumulator holds the current
sentence reversed, so its head is the character just before the cursor. -/
def sentenceBoundary (accRev : Str) : Bool :=
  match accRev with
  | p :: _ => p == '.' || p == '!' || p == '?'
  | [] => false

/-- Worker for `splitSentences`: scans the text, closing a sentence at each
whitespace run preceded by `.`, `!` or `?`.  The `skipping` flag is true
while the remainder of the greedy `\s+` delimiter run is being consumed. -/
def splitSentencesAux : Bool → Str → Str → List Str
  | _, accRev, [] => [accRev.reverse]
  | skipping, accRev, c :: rest =>
    if skipping && c.isWhitespace then
      splitSentencesAux true accRev rest
    else if c.isWhitespace && sentenceBoundary accRev then
      accRev.reverse :: splitSentencesAux true [] rest
    else
      splitSentencesAux false (c :: accRev) rest

/-- utils.py line 796: `sentences = re.split(r'(?<=[.!?])\s+', text)`. -/
def splitSentences (text : Str) : List Str :=
  splitSentencesAux false [] text

/-- The backward walk that collects the trailing overlap window
(utils.py lines 812-824).  The first argument is the closed chunk's
sentence list reversed; the window is returned in original order together
with the final `overlap_token_count`. -/
def overlapTake (tc : Str → Nat) (overlap_tokens : Nat) :
    List Str → Nat → List Str × Nat
  | [], cnt => ([], cnt)
  | s :: rest, cnt =>
    if cnt + tc s ≤ overlap_tokens then
      let r := overlapTake tc overlap_tokens rest (cnt + tc s)
      (r.1 ++ [s], r.2)
    else
      ([], cnt)

/-- The sentence accumulation loop of smart_chunk_text
(utils.py lines 802-836), including the final flush of
`current_chunk_sentences`. -/
def buildChunksAux (tc : Str → Nat) (max_tokens overlap_tokens : Nat) :
    List Str → List Str → Nat → List Str
  | [], cur, _tok => if cur.isEmpty then [] else [joinSpace cur]
  | s :: rest, cur, tok =>
    if tok + tc s > max_tokens ∧ ¬ cur.isEmpty then
      let ov := overlapTake tc overlap_tokens cur.reverse 0
      joinSpace cur ::
        buildChunksAux tc max_tokens overlap_tokens rest (ov.1 ++ [s]) (ov.2 + tc s)
    else
      buildChunksAux tc max_tokens overlap_tokens rest (cur ++ [s]) (tok + tc s)

/-- Candidate overlap window of the word-splitting path (utils.py line 858):
`temp_chunk_words[-50:] if len(temp_chunk_words) > 50 else
temp_chunk_words[-len(temp_chunk_words)//2:]` (the latter keeps the last
`⌈n/2⌉` words, i.e. drops the first `⌊n/2⌋`). -/
def overlapWindowW (temp : List Str) : List Str :=
  if temp.length > 50 then temp.drop (temp.length - 50)
  else temp.drop (temp.length / 2)

/-- The word-splitting loop for a chunk whose token count exceeds
`max_tokens` (utils.py lines 846-872), including the final flush. -/
def wordSplitAux (tc : Str → Nat) (max_tokens overlap_tokens : Nat) :
    List Str → List Str → Nat → List Str
  | [], temp, _tok => if temp.isEmpty then [] else [joinSpace temp]
  | w :: ws, temp, tok =>
    let wtok := tc (w ++ [' '])
    if tok + wtok > max_tokens ∧ ¬ temp.isEmpty then
      let owTok := tc (joinSpace (overlapWindowW temp))
      if owTok ≤ overlap_tokens then
        joinSpace temp ::
          wordSplitAux tc max_tokens overlap_tokens ws (overlapWindowW temp ++ [w]) (owTok + wtok)
      else
        joinSpace temp :: wordSplitAux tc max_tokens overlap_tokens ws [w] wtok
    else
      wordSplitAux tc max_tokens overlap_tokens ws (temp ++ [w]) (tok + wtok)

/-- utils.py lines 839-872: split an oversized chunk at word boundaries. -/
def splitLongChunk (tc : Str → Nat) (max_tokens overlap_tokens : Nat) (chunk : Str) : List Str :=
  wordSplitAux tc max_tokens overlap_tokens (splitWords chunk) [] 0

/-- utils.smart_chunk_text, lines 774-874 (tokenizer-available path),
with the token counter `tc` abstracting the tiktoken encoding. -/
def smart_chunk_text (tc : Str → Nat) (text : Str)
    (max_tokens overlap_tokens : Nat) : List Str :=
  if tc text ≤ max_tokens then [text]
  else
    let chunks := buildChunksAux tc max_tokens overlap_tokens (splitSentences text) [] 0
    let final := (chunks.map (fun c =>
      if tc c ≤ max_tokens then [c] else splitLongChunk tc max_tokens overlap_tokens c)).flatten
    if final.isEmpty then [text.take (max_tokens * 3)] else final

/- ------------------------------------------------------------------
smart_chunk_text character-based fallback (utils.py lines 876-913), used
when tiktoken is unavailable (or raises).  The `while start < len(text)`
loop is modelled with explicit fuel; `none` models non-termination.
------------------------------------------------------------------ -/

/-- One fallback loop, fuel-indexed.  `chunk_size = max_tokens * 3`,
`overlap_size = overlap_tokens * 3`; after appending `text[start:end]` the
code sets `start = end - overlap_size if end - overlap_size > start else end`
(Nat subtraction agrees with Python here: a negative `end - overlap_size`
never exceeds `start`). -/
def charChunkAux (text : Str) (chunk_size overlap_size : Nat) :
    Nat → Nat → Option (List Str)
  | 0, _start => none
  | fuel + 1, start =>
    if start < text.length then
      let chunk := (text.drop start).take chunk_size
      let e := start + chunk_size
      let start' := if start < e - overlap_size then e - overlap_size else e
      match charChunkAux text chunk_size overlap_size fuel start' with
      | none => none
      | some rest => some (chunk :: rest)
    else
      some []

/-- The character-based fallback path of smart_chunk_text
(both the ImportError and the generic-exception handler run this same loop). -/
def char_chunk_fallback (text : Str) (max_tokens overlap_tokens : Nat)
    (fuel : Nat) : Option (List Str) :=
  charChunkAux text (max_tokens * 3) (overlap_tokens * 3) fuel 0

/- ------------------------------------------------------------------
PineconeService._get_specialized_prompt (pinecone_service.py lines 109-208).
The four returned system-prompt templates are fixed distinct string
constants whose wording is out of the model's scope (spec section 1: only
their role in routing matters); they are modelled as the four constructors
of `PromptCategory`.
------------------------------------------------------------------ -/

/-- The four distinct fixed system-prompt templates, one per question
category. -/
inductive PromptCategory where
  | conceptExplanation
  | gradeOptimization
  | examStrategy
  | general
deriving DecidableEq

/-- Keyword list of the concept/content branch (pinecone_service.py line 114). -/
def conceptKeywords : List Str :=
  ["what is", "what are", "define", "definition", "explain", "meaning of",
   "concept of", "tell me about", "describe", "how does", "what does",
   "theory", "principle", "law of", "model", "framework"].map (fun s => s.data)

/-- Keyword list of the grade/workload branch (pinecone_service.py line 136). -/
def gradeKeywords : List Str :=
  ["get an a", "get a good grade", "maximize grade", "improve grade",
   "boost grade", "raise grade", "better grade", "higher grade", "workload",
   "time management", "balance", "schedule", "manage time", "efficient",
   "priority", "optimize"].map (fun s => s.data)

/-- Keyword list of the exam/assignment branch (pinecone_service.py line 157). -/
def examKeywords : List Str :=
  ["exam", "test", "quiz", "midterm", "final", "assignment", "homework",
   "project", "paper", "essay", "report", "study", "prepare", "review",
   "material", "textbook", "reading", "due date", "deadline",
   "submit"].map (fun s => s.data)

/-- `any(keyword in question_lower for keyword in ...)`. -/
def hasAnyKeyword (keywords : List Str) (questionLower : Str) : Bool :=
  keywords.any (fun k => isSubstr k questionLower)

/-- PineconeService._get_specialized_prompt, lines 109-208: lowercase the
question, then check the three keyword lists in fixed priority order,
defaulting to the general template. -/
def get_specialized_prompt (question : Str) : PromptCategory :=
  let questionLower := lowerStr question
  if hasAnyKeyword conceptKeywords questionLower then .conceptExplanation
  else if hasAnyKeyword gradeKeywords questionLower then .gradeOptimization
  else if hasAnyKeyword examKeywords questionLower then .examStrategy
  else .general

/- ------------------------------------------------------------------
PineconeService.query_notebook (pinecone_service.py lines 210-259) and the
shared Pinecone index.
------------------------------------------------------------------ -/

/-- A record in the shared Pinecone index
(pinecone_service.py lines 80-89: id, vector values, metadata with
notebook_id / text / filename).  The embedding vector itself is abstracted
into the similarity score parameter of `pineconeQuery`. -/
structure VecRecord where
  id : Str
  notebook_id : Str
  text : Str
  filename : Str
deriving DecidableEq

/-- Modelled from the spec: the Pinecone backend operation
`query(vector, top_k, metadata_filter) -> ranked matches with metadata`
(spec section 6), as invoked by query_notebook with the equality filter
`{"notebook_id": {"$eq": notebook_id}}` (pinecone_service.py line 230).
`score` abstracts cosine similarity of each stored vector with the question
embedding; matches are the top_k highest-scoring records that pass the
metadata filter. -/
def pineconeQuery (records : List VecRecord) (score : VecRecord → Int)
    (top_k : Nat) (nb : Str) : List VecRecord :=
  ((records.filter (fun r => decide (r.notebook_id = nb))).insertionSort
    (fun a b => score b ≤ score a)).take top_k

/-- `context = "\n\n".join(relevant_docs)` (pinecone_service.py line 240). -/
def contextOf (docs : List Str) : Str :=
  List.intercalate ['\n', '\n'] docs

/-- PineconeService.query_notebook, lines 210-259.  `gen` abstracts the
chat-completion backend (system prompt, context block, question ->
answer text); a `none` result models both the no-matches case and the
catch-all exception handler. -/
def query_notebook (records : List VecRecord) (score : VecRecord → Int)
    (gen : PromptCategory → Str → Str → Str) (nb question : Str)
    (top_k : Nat) : Option Str :=
  let hits := pineconeQuery records score top_k nb
  if hits.isEmpty then none
  else
    some (gen (get_specialized_prompt question)
      (contextOf (hits.map (fun m => m.text))) question)

/- ------------------------------------------------------------------
Study-features cache (utils.py lines 710-771).  The Supabase table
`study_features_cache` is not part of src; it is modelled from the spec:
"a table keyed by (tenant_id, feature_type) supporting upsert, point
lookup, and delete-by-key" (section 6), with "at most one row per
(tenant_id, feature_type)" (section 3).
------------------------------------------------------------------ -/

/-- A row of the `study_features_cache` table. -/
structure CacheRow where
  notebook_id : Str
  feature_type : Str
  content : Str
deriving DecidableEq

/-- Whether a row matches the key (notebook_id, feature_type). -/
def rowKeyMatches (t f : Str) (r : CacheRow) : Bool :=
  decide (r.notebook_id = t) && decide (r.feature_type = f)

/-- Modelled from the spec: `upsert` of the relational cache store —
overwrite the row with the same (tenant, feature) key if present,
otherwise insert a new row. -/
def upsertRow (tbl : List CacheRow) (t f c : Str) : List CacheRow :=
  if tbl.any (rowKeyMatches t f) then
    tbl.map (fun r => if rowKeyMatches t f r then { r with content := c } else r)
  else
    tbl ++ [⟨t, f, c⟩]

/-- Modelled from the spec: point lookup
`select("content").eq("notebook_id", t).eq("feature_type", f)`;
the first matching row's content, if any. -/
def selectContent (tbl : List CacheRow) (t f : Str) : Option Str :=
  ((tbl.filter (rowKeyMatches t f)).head?).map (fun r => r.content)

/-- Modelled from the spec: delete-by-key
`delete().eq("notebook_id", t).eq("feature_type", f)`. -/
def deleteRows (tbl : List CacheRow) (t f : Str) : List CacheRow :=
  tbl.filter (fun r => ! rowKeyMatches t f r)

/-- utils.get_cached_study_feature, lines 710-728: returns
`result.data[0]["content"]` when the query returns at least one row,
`None` otherwise. -/
def get_cached_study_feature (tbl : List CacheRow) (t f : Str) : Option Str :=
  selectContent tbl t f

/-- utils.cache_study_feature, lines 731-753: upsert and return True
(the exception path, returning False, corresponds to a store failure and
leaves the table unchanged). -/
def cache_study_feature (tbl : List CacheRow) (t f c : Str) : List CacheRow × Bool :=
  (upsertRow tbl t f c, true)

/-- utils.clear_cached_study_feature, lines 756-771: delete the key's
row(s) and return True. -/
def clear_cached_study_feature (tbl : List CacheRow) (t f : Str) : List CacheRow × Bool :=
  (deleteRows tbl t f, true)

/-- Number of rows carrying the key (t, f). -/
def countKey (tbl : List CacheRow) (t f : Str) : Nat :=
  tbl.countP (rowKeyMatches t f)

/-- The table invariant guaranteed by the store (spec section 3: at most
one row per (tenant_id, feature_type)). -/
def CacheWF (tbl : List CacheRow) : Prop :=
  ∀ t f : Str, countKey tbl t f ≤ 1

/- ------------------------------------------------------------------
Extraction pipeline: utils.parse_file (lines 453-495) and the per-format
parsers (lines 105-451).  Each parser wraps its library calls in a
catch-all `try/except` returning `(None, None, None)`; a raising library
call is modelled as an `Except.error` outcome in `ParseEnv`.  DataFrames
are never inspected by the pipeline, so tables are modelled as `List Unit`.
------------------------------------------------------------------ -/

/-- The `(text, images, tables)` triple every parser returns. -/
abbrev ParseResult : Type := Option Str × Option (List Str) × Option (List Unit)

/-- Outcomes of the underlying extraction-library calls for one file:
`.error` models the library raising, `.ok` the text it extracts.
`pymupdfImgs` is the image list PyMuPDF collects when images are
requested. -/
structure ParseEnv where
  pymupdfRaw : Except Unit Str
  pymupdfImgs : List Str
  doclingRaw : Except Unit Str
  spreadsheetRaw : Except Unit Str
  ipynbRaw : Except Unit Str
  pptxRaw : Except Unit Str
  docxRaw : Except Unit Str

/-- utils.parse_file_pymupdf, lines 105-161: catch-all try/except; on
success images are returned only when requested and tables are `[]` when
requested. -/
def parse_file_pymupdf (env : ParseEnv) (with_images with_tables : Bool) : ParseResult :=
  match env.pymupdfRaw with
  | .error _ => (none, none, none)
  | .ok t => (some t, if with_images then some env.pymupdfImgs else none,
              if with_tables then some [] else none)

/-- utils.parse_file_docling, lines 164-212: catch-all try/except; on
success `images`/`tables` are empty lists when requested. -/
def parse_file_docling (env : ParseEnv) (with_images with_tables : Bool) : ParseResult :=
  match env.doclingRaw with
  | .error _ => (none, none, none)
  | .ok t => (some t, if with_images then some [] else none,
              if with_tables then some [] else none)

/-- utils.parse_spreadsheet_file, lines 244-293 (tables kept abstract;
images are always `None`). -/
def parse_spreadsheet_file (env : ParseEnv) (with_tables : Bool) : ParseResult :=
  match env.spreadsheetRaw with
  | .error _ => (none, none, none)
  | .ok t => (some t, none, some [])

/-- utils.parse_jupyter_notebook, lines 296-341. -/
def parse_jupyter_notebook (env : ParseEnv) : ParseResult :=
  match env.ipynbRaw with
  | .error _ => (none, none, none)
  | .ok t => (some t, none, none)

/-- utils.parse_powerpoint_file, lines 344-394 (collected slide images
abstracted as an empty list; tables stay `None`). -/
def parse_powerpoint_file (env : ParseEnv) : ParseResult :=
  match env.pptxRaw with
  | .error _ => (none, none, none)
  | .ok t => (some t, some [], none)

/-- utils.parse_docx_file, lines 397-450. -/
def parse_docx_file (env : ParseEnv) : ParseResult :=
  match env.docxRaw with
  | .error _ => (none, none, none)
  | .ok t => (some t, none, none)

/-- Every library call of `env` raises. -/
def ParseEnv.allError (env : ParseEnv) : Prop :=
  env.pymupdfRaw = .error () ∧ env.doclingRaw = .error () ∧
  env.spreadsheetRaw = .error () ∧ env.ipynbRaw = .error () ∧
  env.pptxRaw = .error () ∧ env.docxRaw = .error ()

/-- The Docling fallback arm of parse_file (utils.py lines 487-495):
accept Docling text on the length bar alone, else the sentinel. -/
def doclingFallback (env : ParseEnv) (with_tables : Bool) : ParseResult :=
  let d := parse_file_docling env true with_tables
  match d.1 with
  | some t => if ¬ t.isEmpty ∧ (stripStr t).length > 50 then d
              else (none, none, none)
  | none => (none, none, none)

/-- utils.parse_file, lines 453-495: dispatch on the file extension; for
free-form documents try PyMuPDF first (images enabled), accept its text
when it is nonempty, longer than 50 characters stripped, and passes the
quality heuristic; otherwise fall back to Docling and accept its text on
the length bar alone, returning the `(None, None, None)` sentinel when
that also fails. -/
def parse_file (env : ParseEnv) (file_ext : Str)
    (with_images with_tables : Bool) : ParseResult :=
  if file_ext = (".xlsx".data) ∨ file_ext = (".csv".data) then
    parse_spreadsheet_file env with_tables
  else if file_ext = (".ipynb".data) then
    parse_jupyter_notebook env
  else if file_ext = (".ppt".data) ∨ file_ext = (".pptx".data) then
    parse_powerpoint_file env
  else if file_ext = (".docx".data) then
    parse_docx_file env
  else
    let r := parse_file_pymupdf env true with_tables
    match r.1 with
    | some t =>
      if ¬ t.isEmpty ∧ (stripStr t).length > 50 ∧
          is_handwritten_or_poor_extraction t = false then r
      else doclingFallback env with_tables
    | none => doclingFallback env with_tables

/- ------------------------------------------------------------------
utils.process_file_for_notebook (lines 539-635) and the document records
it builds (lines 577-587).
------------------------------------------------------------------ -/

/-- A document record built for one chunk (utils.py lines 579-586). -/
structure DocRecord where
  text : Str
  filename : Str
  notebook_id : Str
  chunk_index : Nat
  total_chunks : Nat
  processed_at : Str
deriving DecidableEq

/-- utils.py lines 577-587: one record per chunk, with its position and
the shared total. -/
def buildDocuments (chunks : List Str) (filename nb now : Str) : List DocRecord :=
  chunks.enum.map (fun p => ⟨p.2, filename, nb, p.1, chunks.length, now⟩)

/-- Python `f"Processed {n} chunks"`. -/
def processedMsg (n : Nat) : Str :=
  ("Processed ".data) ++ (toString n).data ++ (" chunks".data)

/-- utils.process_file_for_notebook, lines 539-635: resolve the file
(`fileFound` abstracts the path probing), extract text via `parse_file`
(no images/tables), chunk it with `max_tokens=6000` and the default
`overlap_tokens=200`, build one record per chunk, hand them to the
Pinecone service (`addOk` abstracts `add_documents_to_notebook`, which
catches internally and returns a boolean), and return the sentinel
`(None, None)` on any failure; the catch-all try/except means no path
raises. -/
def process_file_for_notebook (tc : Str → Nat) (env : ParseEnv)
    (file_ext filename : Str) (fileFound : Bool) (addOk : Bool)
    (nb now : Str) : Option Str × Option Str :=
  if ¬ fileFound then (none, none)
  else
    match (parse_file env file_ext false false).1 with
    | none => (none, none)
    | some text =>
      let text_chunks := smart_chunk_text tc text 6000 200
      let _documents := buildDocuments text_chunks filename nb now
      if addOk then
        (some ("Document processed and added to notebook index".data),
         some (processedMsg text_chunks.length))
      else (none, none)

/- ------------------------------------------------------------------
utils.format_response_with_template (lines 30-48) and
utils.query_index_for_notebook (lines 641-664).
------------------------------------------------------------------ -/

/-- The fallback wrapper of format_response_with_template's except branch
(utils.py line 48):
`f"**Answer:**\n\n{raw_response}\n\n---\n\n*This response is based on your uploaded documents.*"`. -/
def fallbackWrapper (raw : Str) : Str :=
  ("**Answer:**\n\n".data) ++ raw ++
    ("\n\n---\n\n*This response is based on your uploaded documents.*".data)

/-- utils.format_response_with_template, lines 30-48.  `render` is the
outcome of loading and rendering the Jinja response template with
(question, raw_response): `.error` models that step raising, which the
function catches, falling back to the static wrapper. -/
def format_response_with_template (render : Except Unit Str) (raw : Str) : Str :=
  match render with
  | .ok s => s
  | .error _ => fallbackWrapper raw

/-- utils.query_index_for_notebook, lines 641-664: query the notebook's
index (`rawResponse` is `pinecone_service.query_notebook`'s result), pass
a truthy raw answer through the template formatter, and fall back to the
raw answer only if the formatting call itself raises — which
`format_response_with_template` (catch-all inside) never does, so that
arm is modelled by the formatter's total result. -/
def query_index_for_notebook (rawResponse : Option Str)
    (render : Except Unit Str) : Option Str :=
  match rawResponse with
  | none => none
  | some raw =>
    if raw.isEmpty then none
    else some (format_response_with_template render raw)

/- ==================================================================
Theorems
================================================================== -/

/-- C9: for a document producing N chunks, the records carry chunk_index
0..N-1 in order and every record's total_chunks equals N. -/
theorem C9_chunk_index_contiguous (chunks : List Str) (filename nb now : Str) :
    (buildDocuments chunks filename nb now).map (fun d => d.chunk_index)
      = List.range chunks.length
    ∧ ∀ d ∈ buildDocuments chunks filename nb now, d.total_chunks = chunks.length := by
  constructor
  · rw [buildDocuments, List.map_map]
    exact List.enum_map_fst chunks
  · intro d hd
    obtain ⟨p, _, rfl⟩ := List.mem_map.mp hd
    rfl

/-- C6: question classification checks the concept, grade and exam keyword
lists in that fixed priority order (first match wins), defaults to the
general template, and the four templates are pairwise distinct. -/
theorem C6_prompt_classification (question : Str) :
    (get_specialized_prompt question = .conceptExplanation ↔
      hasAnyKeyword conceptKeywords (lowerStr question) = true)
    ∧ (get_specialized_prompt question = .gradeOptimization ↔
      hasAnyKeyword conceptKeywords (lowerStr question) = false ∧
      hasAnyKeyword gradeKeywords (lowerStr question) = true)
    ∧ (get_specialized_prompt question = .examStrategy ↔
      hasAnyKeyword conceptKeywords (lowerStr question) = false ∧
      hasAnyKeyword gradeKeywords (lowerStr question) = false ∧
      hasAnyKeyword examKeywords (lowerStr question) = true)
    ∧ (get_specialized_prompt question = .general ↔
      hasAnyKeyword conceptKeywords (lowerStr question) = false ∧
      hasAnyKeyword gradeKeywords (lowerStr question) = false ∧
      hasAnyKeyword examKeywords (lowerStr question) = false)
    ∧ List.Pairwise (fun a b => a ≠ b)
        [PromptCategory.conceptExplanation, PromptCategory.gradeOptimization,
         PromptCategory.examStrategy, PromptCategory.general] := by
  refine ⟨?_, ?_, ?_, ?_, by decide⟩ <;>
  · unfold get_specialized_prompt
    cases h1 : hasAnyKeyword conceptKeywords (lowerStr question) <;>
      cases h2 : hasAnyKeyword gradeKeywords (lowerStr question) <;>
        cases h3 : hasAnyKeyword examKeywords (lowerStr question) <;>
          simp [h1, h2, h3]

/-- The quality predicate exactly as claim C7 words it: below minimum
stripped length, or an indicator keyword, or a non-alphanumeric ratio
above 30% — with no length precondition on the ratio test. -/
def claimedPoorExtraction (text : Str) : Bool :=
  decide ((stripStr text).length < 50)
  || handwrittenIndicators.any (fun k => isSubstr k (lowerStr text))
  || decide (10 * nonAlnumCount text > 3 * text.length)

/-- C7 counterexample: a 60-character text (36 letters, 24 `!`) has a 40%
non-alphanumeric ratio, no indicator keyword and stripped length ≥ 50, so
the claimed predicate holds, yet the code returns False because the ratio
test only runs when `len(text) > 100`. -/
theorem C7_counterexample :
    is_handwritten_or_poor_extraction
      ("abcdefghijklmnopqrstuvwxyzabcdefghij!!!!!!!!!!!!!!!!!!!!!!!!".data) = false
    ∧ claimedPoorExtraction
      ("abcdefghijklmnopqrstuvwxyzabcdefghij!!!!!!!!!!!!!!!!!!!!!!!!".data) = true := by
  decide

/-- C7 (amended): the heuristic returns True exactly when the stripped
text is shorter than 50 characters, or an indicator keyword occurs in the
lowercased text, or the text is longer than 100 characters and its
non-alphanumeric ratio exceeds 30%. -/
theorem C7_quality_heuristic (text : Str) :
    is_handwritten_or_poor_extraction text = true ↔
      ((stripStr text).length < 50
       ∨ (∃ k ∈ handwrittenIndicators, isSubstr k (lowerStr text) = true)
       ∨ (100 < text.length ∧ 3 * text.length < 10 * nonAlnumCount text)) := by
  unfold is_handwritten_or_poor_extraction
  split_ifs with h1 h2 h3
  · simp only [true_iff]
    left
    rcases h1 with he | hl
    · have : text = [] := List.isEmpty_iff.mp he
      subst this
      simp [stripStr]
    · exact hl
  · simp only [true_iff]
    right; left
    obtain ⟨k, hk, hsub⟩ := List.any_eq_true.mp h2
    exact ⟨k, hk, hsub⟩
  · simp only [true_iff]
    right; right
    exact ⟨h3.1, h3.2⟩
  · simp only [false_iff]
    intro hcl
    rcases hcl with hl | ⟨k, hk, hsub⟩ | ⟨hlen, hrat⟩
    · exact h1 (Or.inr hl)
    · apply h2
      exact List.any_eq_true.mpr ⟨k, hk, hsub⟩
    · exact h3 ⟨hlen, hrat⟩

/-- Content overwriting preserves the row key. -/
theorem rowKeyMatches_set_content (t f c : Str) (r : CacheRow) :
    rowKeyMatches t f { r with content := c } = rowKeyMatches t f r := rfl

/-- After an upsert, every row matching the key carries the new content. -/
theorem upsert_match_content (tbl : List CacheRow) (t f c : Str) :
    ∀ r ∈ upsertRow tbl t f c, rowKeyMatches t f r = true → r.content = c := by
  intro r hr hkey
  unfold upsertRow at hr
  split_ifs at hr with hany
  · obtain ⟨r0, _, rfl⟩ := List.mem_map.mp hr
    by_cases hk0 : rowKeyMatches t f r0 = true
    · rw [if_pos hk0]
    · rw [if_neg hk0] at hkey ⊢
      exact absurd hkey hk0
  · rcases List.mem_append.mp hr with hin | hnew
    · have hall : ∀ x ∈ tbl, ¬ rowKeyMatches t f x = true := by
        intro x hx hkx
        exact absurd (List.any_eq_true.mpr ⟨x, hx, hkx⟩) (by simpa using hany)
      exact absurd hkey (hall r hin)
    · have : r = ⟨t, f, c⟩ := by simpa using hnew
      rw [this]

/-- After an upsert, some row matches the key. -/
theorem upsert_exists_match (tbl : List CacheRow) (t f c : Str) :
    ∃ r ∈ upsertRow tbl t f c, rowKeyMatches t f r = true := by
  unfold upsertRow
  split_ifs with hany
  · obtain ⟨r0, hr0, hk0⟩ := List.any_eq_true.mp hany
    refine ⟨if rowKeyMatches t f r0 then { r0 with content := c } else r0,
      List.mem_map_of_mem _ hr0, ?_⟩
    rw [if_pos hk0, rowKeyMatches_set_content]
    exact hk0
  · refine ⟨⟨t, f, c⟩, List.mem_append_right _ (List.mem_singleton_self _), ?_⟩
    simp [rowKeyMatches]

/-- Point lookup after upsert returns the upserted content. -/
theorem selectContent_upsert (tbl : List CacheRow) (t f c : Str) :
    selectContent (upsertRow tbl t f c) t f = some c := by
  cases hfil : (upsertRow tbl t f c).filter (rowKeyMatches t f) with
  | nil =>
    exfalso
    obtain ⟨r, hrmem, hrkey⟩ := upsert_exists_match tbl t f c
    have hr : r ∈ (upsertRow tbl t f c).filter (rowKeyMatches t f) :=
      List.mem_filter.mpr ⟨hrmem, hrkey⟩
    rw [hfil] at hr
    cases hr
  | cons r rest =>
    have hr : r ∈ (upsertRow tbl t f c).filter (rowKeyMatches t f) := by
      rw [hfil]; exact List.mem_cons_self r rest
    obtain ⟨hmem, hkey⟩ := List.mem_filter.mp hr
    have hc := upsert_match_content tbl t f c r hmem hkey
    simp [selectContent, hfil, hc]

/-- An upsert leaves exactly one row with the key, provided the table had
at most one. -/
theorem countKey_upsert (tbl : List CacheRow) (t f c : Str)
    (h : countKey tbl t f ≤ 1) : countKey (upsertRow tbl t f c) t f = 1 := by
  unfold countKey upsertRow
  split_ifs with hany
  · rw [List.countP_map]
    have heq : tbl.countP ((rowKeyMatches t f) ∘
        (fun r => if rowKeyMatches t f r then { r with content := c } else r))
        = tbl.countP (rowKeyMatches t f) := by
      apply List.countP_congr
      intro r _
      by_cases hk : rowKeyMatches t f r = true
      · simp [Function.comp, if_pos hk, rowKeyMatches_set_content, hk]
      · simp [Function.comp, if_neg hk]
    rw [heq]
    obtain ⟨r0, hr0, hk0⟩ := List.any_eq_true.mp hany
    have hpos : 0 < tbl.countP (rowKeyMatches t f) :=
      List.countP_pos_iff.mpr ⟨r0, hr0, hk0⟩
    unfold countKey at h
    omega
  · rw [List.countP_append]
    have hz : tbl.countP (rowKeyMatches t f) = 0 := by
      apply List.countP_eq_zero.mpr
      intro x hx hkx
      exact absurd (List.any_eq_true.mpr ⟨x, hx, hkx⟩) (by simpa using hany)
    rw [hz]
    simp [List.countP_cons, rowKeyMatches]

/-- Point lookup after delete-by-key returns nothing. -/
theorem selectContent_delete (tbl : List CacheRow) (t f : Str) :
    selectContent (deleteRows tbl t f) t f = none := by
  unfold selectContent deleteRows
  rw [List.filter_filter]
  have : ∀ r : CacheRow, (rowKeyMatches t f r && ! rowKeyMatches t f r) = false := by
    intro r
    cases rowKeyMatches t f r <;> rfl
  simp [this]

/-- C3: on a well-formed table, get-after-put returns the cached content,
a second put overwrites (still exactly one row for the key), and
clear-then-get returns none. -/
theorem C3_cache_semantics (tbl : List CacheRow) (t f c c2 : Str)
    (hwf : CacheWF tbl) :
    get_cached_study_feature (cache_study_feature tbl t f c).1 t f = some c
    ∧ get_cached_study_feature
        (cache_study_feature (cache_study_feature tbl t f c).1 t f c2).1 t f = some c2
    ∧ countKey (cache_study_feature (cache_study_feature tbl t f c).1 t f c2).1 t f = 1
    ∧ get_cached_study_feature
        (clear_cached_study_feature (cache_study_feature tbl t f c).1 t f).1 t f = none := by
  refine ⟨selectContent_upsert tbl t f c, selectContent_upsert _ t f c2, ?_, ?_⟩
  · apply countKey_upsert
    exact Nat.le_of_eq (countKey_upsert tbl t f c (hwf t f))
  · exact selectContent_delete _ t f

/-- C3 witness: the cache semantics at a concrete (empty, well-formed)
table and concrete key and contents. -/
theorem C3_cache_semantics_witness :
    get_cached_study_feature
      (cache_study_feature [] ("nb1".data) ("summary".data) ("text1".data)).1
      ("nb1".data) ("summary".data) = some ("text1".data)
    ∧ get_cached_study_feature
        (cache_study_feature
          (cache_study_feature [] ("nb1".data) ("summary".data) ("text1".data)).1
          ("nb1".data) ("summary".data) ("text2".data)).1
        ("nb1".data) ("summary".data) = some ("text2".data)
    ∧ countKey
        (cache_study_feature
          (cache_study_feature [] ("nb1".data) ("summary".data) ("text1".data)).1
          ("nb1".data) ("summary".data) ("text2".data)).1
        ("nb1".data) ("summary".data) = 1
    ∧ get_cached_study_feature
        (clear_cached_study_feature
          (cache_study_feature [] ("nb1".data) ("summary".data) ("text1".data)).1
          ("nb1".data) ("summary".data)).1
        ("nb1".data) ("summary".data) = none :=
  C3_cache_semantics [] ("nb1".data) ("summary".data) ("text1".data) ("text2".data)
    (fun t f => by simp [countKey])

/-- C2: records retrieved for tenant A all carry notebook_id A (hence
never B for any B ≠ A), and every text entering the context block comes
from one of tenant A's records — regardless of the stored texts and of the
similarity ranking. -/
theorem C2_tenant_isolation (records : List VecRecord) (score : VecRecord → Int)
    (top_k : Nat) (A B : Str) (hAB : A ≠ B) :
    (∀ r ∈ pineconeQuery records score top_k A,
      r ∈ records ∧ r.notebook_id = A ∧ r.notebook_id ≠ B)
    ∧ (∀ t ∈ (pineconeQuery records score top_k A).map (fun m => m.text),
        ∃ r ∈ records, r.notebook_id = A ∧ r.text = t)
    ∧ ∀ (gen : PromptCategory → Str → Str → Str) (question : Str),
        query_notebook records score gen A question top_k = none
        ∨ query_notebook records score gen A question top_k
            = some (gen (get_specialized_prompt question)
                (contextOf ((pineconeQuery records score top_k A).map
                  (fun m => m.text)))
                question) := by
  have key : ∀ r ∈ pineconeQuery records score top_k A,
      r ∈ records ∧ r.notebook_id = A := by
    intro r hr
    have h1 : r ∈ (records.filter
        (fun r => decide (r.notebook_id = A))).insertionSort
          (fun a b => score b ≤ score a) :=
      List.mem_of_mem_take hr
    have h2 : r ∈ records.filter (fun r => decide (r.notebook_id = A)) :=
      (List.perm_insertionSort _ _).mem_iff.mp h1
    obtain ⟨hmem, hkey⟩ := List.mem_filter.mp h2
    exact ⟨hmem, of_decide_eq_true hkey⟩
  refine ⟨?_, ?_, ?_⟩
  · intro r hr
    obtain ⟨hmem, hA⟩ := key r hr
    exact ⟨hmem, hA, by rw [hA]; exact hAB⟩
  · intro t ht
    obtain ⟨r, hr, rfl⟩ := List.mem_map.mp ht
    obtain ⟨hmem, hA⟩ := key r hr
    exact ⟨r, hmem, hA, rfl⟩
  · intro gen question
    by_cases he : (pineconeQuery records score top_k A).isEmpty
    · left
      simp [query_notebook, he]
    · right
      simp [query_notebook, he]

/-- The two-tenant record list used by the C2 witness: tenants A and B
store embeddings of identical text. -/
def isolationRecords : List VecRecord :=
  [⟨("id1".data), ("A".data), ("same text".data), ("f.pdf".data)⟩,
   ⟨("id2".data), ("B".data), ("same text".data), ("f.pdf".data)⟩]

/-- C2 witness: two tenants A and B holding records with identical text;
the query scoped to A only ever sees A's record. -/
theorem C2_tenant_isolation_witness :
    ("A".data) ≠ ("B".data)
    ∧ ((∀ r ∈ pineconeQuery isolationRecords (fun _ => 0) 5 ("A".data),
        r ∈ isolationRecords
          ∧ r.notebook_id = ("A".data) ∧ r.notebook_id ≠ ("B".data))
      ∧ (∀ t ∈ (pineconeQuery isolationRecords (fun _ => 0) 5 ("A".data)).map
            (fun m => m.text),
          ∃ r ∈ isolationRecords, r.notebook_id = ("A".data) ∧ r.text = t)
      ∧ ∀ (gen : PromptCategory → Str → Str → Str) (question : Str),
          query_notebook isolationRecords (fun _ => 0) gen ("A".data) question 5
            = none
          ∨ query_notebook isolationRecords (fun _ => 0) gen ("A".data) question 5
              = some (gen (get_specialized_prompt question)
                  (contextOf ((pineconeQuery isolationRecords (fun _ => 0) 5
                    ("A".data)).map (fun m => m.text)))
                  question)) :=
  ⟨by decide,
   C2_tenant_isolation isolationRecords (fun _ => 0) 5 ("A".data) ("B".data)
     (by decide)⟩

/-- C8 counterexample: with a raw answer "hi" and a failing template
render, query_index_for_notebook returns the static fallback wrapper,
which differs from the raw answer — not the raw answer unmodified. -/
theorem C8_counterexample :
    query_index_for_notebook (some ("hi".data)) (.error ())
      = some (fallbackWrapper ("hi".data))
    ∧ fallbackWrapper ("hi".data) ≠ ("hi".data) := by
  constructor
  · rfl
  · decide

/-- C8 (amended): when the template rendering fails the query still
succeeds, returning the raw answer wrapped in the static fallback format
(the raw answer occurs verbatim inside it); the raw answer is returned
unmodified exactly when the rendering succeeds returning it, since the
formatter catches its own failure. -/
theorem C8_template_fallback (raw : Str) (render : Except Unit Str)
    (hraw : ¬ raw.isEmpty) :
    (render = .error () →
      query_index_for_notebook (some raw) render = some (fallbackWrapper raw)
      ∧ raw <:+: fallbackWrapper raw)
    ∧ (∀ s, render = .ok s →
      query_index_for_notebook (some raw) render = some s) := by
  constructor
  · intro herr
    subst herr
    refine ⟨by simp [query_index_for_notebook, hraw,
      format_response_with_template], ?_⟩
    exact ⟨("**Answer:**\n\n".data),
      ("\n\n---\n\n*This response is based on your uploaded documents.*".data), rfl⟩
  · intro s hok
    subst hok
    simp [query_index_for_notebook, hraw, format_response_with_template]

/-- C8 witness: the fallback behaviour at the concrete raw answer "hi". -/
theorem C8_template_fallback_witness :
    ¬ (("hi".data) : Str).isEmpty
    ∧ (query_index_for_notebook (some ("hi".data)) (.error ())
        = some (fallbackWrapper ("hi".data))
      ∧ ("hi".data) <:+: fallbackWrapper ("hi".data)) :=
  ⟨by decide,
   (C8_template_fallback ("hi".data) (.error ()) (by decide)).1 rfl⟩

/-- With a positive chunk size the loop cursor strictly advances, so the
fallback terminates within `text.length + 1` iterations. -/
theorem charChunkAux_isSome (text : Str) (cs ovl : Nat) (hcs : 1 ≤ cs) :
    ∀ fuel start, text.length - start < fuel →
      (charChunkAux text cs ovl fuel start).isSome = true := by
  intro fuel
  induction fuel with
  | zero => intro start h; omega
  | succ n ih =>
    intro start h
    by_cases hlt : start < text.length
    · have hrec : (charChunkAux text cs ovl n
          (if start < start + cs - ovl then start + cs - ovl else start + cs)).isSome
            = true := by
        apply ih
        split <;> omega
      simp only [charChunkAux, if_pos hlt]
      cases hres : charChunkAux text cs ovl n
          (if start < start + cs - ovl then start + cs - ovl else start + cs) with
      | none => rw [hres] at hrec; cases hrec
      | some rest => simp
    · simp [charChunkAux, hlt]

/-- With chunk size zero the cursor never advances, so the loop never
finishes on nonempty text. -/
theorem charChunkAux_zero_none (text : Str) (ovl : Nat) :
    ∀ fuel start, start < text.length →
      charChunkAux text 0 ovl fuel start = none := by
  intro fuel
  induction fuel with
  | zero => intro start _; rfl
  | succ n ih =>
    intro start hlt
    have hcond : ¬ start < start - ovl := by omega
    simp only [charChunkAux, if_pos hlt, Nat.add_zero, if_neg hcond, ih start hlt]

/-- C10: the character-based fallback of smart_chunk_text terminates for
every `max_tokens ≥ 1` (fuel `text.length + 1` suffices since `start`
strictly increases each iteration), and with `max_tokens = 0` on nonempty
text the loop runs forever (no fuel suffices). -/
theorem C10_char_fallback_termination (text : Str) (max_tokens overlap_tokens : Nat) :
    (1 ≤ max_tokens →
      (char_chunk_fallback text max_tokens overlap_tokens
        (text.length + 1)).isSome = true)
    ∧ (max_tokens = 0 → text ≠ [] →
      ∀ fuel, char_chunk_fallback text max_tokens overlap_tokens fuel = none) := by
  constructor
  · intro hmax
    apply charChunkAux_isSome text (max_tokens * 3) (overlap_tokens * 3) (by omega)
    omega
  · intro h0 hne fuel
    subst h0
    apply charChunkAux_zero_none
    cases text with
    | nil => exact absurd rfl hne
    | cons c rest => simp

/-- C10 witness: termination at `max_tokens = 1` on "abc", and divergence
at `max_tokens = 0` on "a". -/
theorem C10_char_fallback_termination_witness :
    (char_chunk_fallback ("abc".data) 1 0 (("abc".data).length + 1)).isSome = true
    ∧ ∀ fuel, char_chunk_fallback ("a".data) 0 5 fuel = none :=
  ⟨(C10_char_fallback_termination ("abc".data) 1 0).1 (by decide),
   (C10_char_fallback_termination ("a".data) 0 5).2 rfl (by decide)⟩

/-- The extraction environment of the C4 counterexample: PyMuPDF raises,
Docling succeeds with 60 characters of usable text. -/
def c4FallbackEnv : ParseEnv :=
  ⟨.error (), [], .ok (List.replicate 60 'b'), .error (), .error (),
   .error (), .error ()⟩

/-- C4 counterexample: an extraction stage (PyMuPDF) raises, yet
parse_file does not return the sentinel — the Docling fallback succeeds
and its text is returned. -/
theorem C4_counterexample :
    c4FallbackEnv.pymupdfRaw = .error ()
    ∧ parse_file c4FallbackEnv (".pdf".data) false false
        = (some (List.replicate 60 'b'), some [], none)
    ∧ parse_file c4FallbackEnv (".pdf".data) false false ≠ (none, none, none) := by
  refine ⟨rfl, by decide, by decide⟩

/-- C4 (amended): no extraction stage's exception propagates — a raising
stage is treated as "no text" for that stage; when every extraction stage
raises, parse_file returns (None, None, None) for every file type and
flag combination, and process_file_for_notebook returns (None, None). -/
theorem C4_no_exception_propagation (tc : Str → Nat) (env : ParseEnv)
    (file_ext filename : Str) (fileFound addOk : Bool) (nb now : Str)
    (hall : env.allError) :
    (∀ wi wt : Bool, parse_file env file_ext wi wt = (none, none, none))
    ∧ process_file_for_notebook tc env file_ext filename fileFound addOk nb now
        = (none, none) := by
  obtain ⟨h1, h2, h3, h4, h5, h6⟩ := hall
  have hpf : ∀ wi wt : Bool, parse_file env file_ext wi wt = (none, none, none) := by
    intro wi wt
    unfold parse_file
    split_ifs with e1 e2 e3 e4
    · simp [parse_spreadsheet_file, h3]
    · simp [parse_jupyter_notebook, h4]
    · simp [parse_powerpoint_file, h5]
    · simp [parse_docx_file, h6]
    · simp [parse_file_pymupdf, h1, doclingFallback, parse_file_docling, h2]
  refine ⟨hpf, ?_⟩
  unfold process_file_for_notebook
  cases fileFound with
  | false => simp
  | true => simp [hpf false false]

/-- The all-raising extraction environment of the C4 witness. -/
def c4AllErrorEnv : ParseEnv :=
  ⟨.error (), [], .error (), .error (), .error (), .error (), .error ()⟩

/-- C4 witness: the amended no-propagation property at a concrete
all-raising environment. -/
theorem C4_no_exception_propagation_witness :
    c4AllErrorEnv.allError
    ∧ ((∀ wi wt : Bool,
        parse_file c4AllErrorEnv (".pdf".data) wi wt = (none, none, none))
      ∧ process_file_for_notebook (fun _ => 1) c4AllErrorEnv (".pdf".data)
          ("f.pdf".data) true true ("nb1".data) ("now".data) = (none, none)) :=
  ⟨⟨rfl, rfl, rfl, rfl, rfl, rfl⟩,
   C4_no_exception_propagation (fun _ => 1) c4AllErrorEnv (".pdf".data)
     ("f.pdf".data) true true ("nb1".data) ("now".data)
     ⟨rfl, rfl, rfl, rfl, rfl, rfl⟩⟩

/-- The backward overlap walk keeps a running count equal to the window's
summed token count, and never lets it exceed the budget. -/
theorem overlapTake_spec (tc : Str → Nat) (ovl : Nat) :
    ∀ (l : List Str) (cnt : Nat), cnt ≤ ovl →
      (overlapTake tc ovl l cnt).2 = cnt + sumTokens tc (overlapTake tc ovl l cnt).1
      ∧ (overlapTake tc ovl l cnt).2 ≤ ovl := by
  intro l
  induction l with
  | nil =>
    intro cnt h
    exact ⟨by simp [overlapTake, sumTokens], h⟩
  | cons s rest ih =>
    intro cnt h
    by_cases hfit : cnt + tc s ≤ ovl
    · have hr := ih (cnt + tc s) hfit
      constructor
      · simp only [overlapTake, if_pos hfit, sumTokens, List.map_append,
          List.sum_append, List.map_cons, List.sum_cons, List.map_nil,
          List.sum_nil]
        have h1 := hr.1
        simp only [sumTokens] at h1
        omega
      · simpa only [overlapTake, if_pos hfit] using hr.2
    · exact ⟨by simp [overlapTake, if_neg hfit, sumTokens], by
        simp only [overlapTake, if_neg hfit]
        exact h⟩

/-- C5: the overlap carried into the next chunk is within budget: the
sentence window collected by the backward walk has summed token count
≤ overlap_tokens, the sentence loop seeds the next chunk with exactly that
window, and the word loop seeds its candidate window only when its token
count is ≤ overlap_tokens (otherwise no overlap is carried). -/
theorem C5_overlap_window_bound (tc : Str → Nat) (max_tokens overlap_tokens : Nat) :
    (∀ cur : List Str,
      sumTokens tc (overlapTake tc overlap_tokens cur 0).1 ≤ overlap_tokens)
    ∧ (∀ (s : Str) (rest cur : List Str) (tok : Nat),
        tok + tc s > max_tokens → ¬ cur.isEmpty →
        buildChunksAux tc max_tokens overlap_tokens (s :: rest) cur tok
          = joinSpace cur ::
            buildChunksAux tc max_tokens overlap_tokens rest
              ((overlapTake tc overlap_tokens cur.reverse 0).1 ++ [s])
              ((overlapTake tc overlap_tokens cur.reverse 0).2 + tc s))
    ∧ (∀ (w : Str) (ws temp : List Str) (tok : Nat),
        tok + tc (w ++ [' ']) > max_tokens → ¬ temp.isEmpty →
        (tc (joinSpace (overlapWindowW temp)) ≤ overlap_tokens ∧
          wordSplitAux tc max_tokens overlap_tokens (w :: ws) temp tok
            = joinSpace temp ::
              wordSplitAux tc max_tokens overlap_tokens ws
                (overlapWindowW temp ++ [w])
                (tc (joinSpace (overlapWindowW temp)) + tc (w ++ [' '])))
        ∨ (overlap_tokens < tc (joinSpace (overlapWindowW temp)) ∧
          wordSplitAux tc max_tokens overlap_tokens (w :: ws) temp tok
            = joinSpace temp ::
              wordSplitAux tc max_tokens overlap_tokens ws [w]
                (tc (w ++ [' '])))) := by
  refine ⟨?_, ?_, ?_⟩
  · intro cur
    have h := overlapTake_spec tc overlap_tokens cur 0 (Nat.zero_le _)
    have h1 := h.1
    have h2 := h.2
    omega
  · intro s rest cur tok hgt hne
    rw [buildChunksAux, if_pos ⟨hgt, hne⟩]
  · intro w ws temp tok hgt hne
    by_cases how : tc (joinSpace (overlapWindowW temp)) ≤ overlap_tokens
    · left
      refine ⟨how, ?_⟩
      rw [wordSplitAux]
      simp only [if_pos (And.intro hgt hne), if_pos how]
    · right
      refine ⟨by omega, ?_⟩
      rw [wordSplitAux]
      simp only [if_pos (And.intro hgt hne), if_neg how]

/-- C5 witness: the overlap bounds at `tc = length`, `max_tokens = 3`,
`overlap_tokens = 1`, with a closing step of each loop. -/
theorem C5_overlap_window_bound_witness :
    (sumTokens (fun s : Str => s.length)
      (overlapTake (fun s : Str => s.length) 1 [("ab".data)] 0).1 ≤ 1)
    ∧ (buildChunksAux (fun s : Str => s.length) 3 1 [("abc".data)] [("ab".data)] 2
        = joinSpace [("ab".data)] ::
          buildChunksAux (fun s : Str => s.length) 3 1 []
            ((overlapTake (fun s : Str => s.length) 1
              ([("ab".data)] : List Str).reverse 0).1 ++ [("abc".data)])
            ((overlapTake (fun s : Str => s.length) 1
              ([("ab".data)] : List Str).reverse 0).2 + List.length ("abc".data)))
    ∧ ((List.length (joinSpace (overlapWindowW [("ab".data)])) ≤ 1 ∧
        wordSplitAux (fun s : Str => s.length) 3 1 [("abc".data)] [("ab".data)] 2
          = joinSpace [("ab".data)] ::
            wordSplitAux (fun s : Str => s.length) 3 1 []
              (overlapWindowW [("ab".data)] ++ [("abc".data)])
              (List.length (joinSpace (overlapWindowW [("ab".data)]))
                + List.length (("abc".data) ++ [' '])))
      ∨ (1 < List.length (joinSpace (overlapWindowW [("ab".data)])) ∧
        wordSplitAux (fun s : Str => s.length) 3 1 [("abc".data)] [("ab".data)] 2
          = joinSpace [("ab".data)] ::
            wordSplitAux (fun s : Str => s.length) 3 1 [] [("abc".data)]
              (List.length (("abc".data) ++ [' '])))) :=
  ⟨(C5_overlap_window_bound (fun s : Str => s.length) 3 1).1 [("ab".data)],
   (C5_overlap_window_bound (fun s : Str => s.length) 3 1).2.1
     ("abc".data) [] [("ab".data)] 2 (by decide) (by decide),
   (C5_overlap_window_bound (fun s : Str => s.length) 3 1).2.2
     ("abc".data) [] [("ab".data)] 2 (by decide) (by decide)⟩

/-- Joining a single piece with spaces is the piece itself. -/
theorem joinSpace_single (w : Str) : joinSpace [w] = w := by
  simp [joinSpace, List.intercalate]

/-- The candidate word-overlap window of a nonempty word list is
nonempty. -/
theorem overlapWindowW_ne_nil (temp : List Str) (h : temp ≠ []) :
    overlapWindowW temp ≠ [] := by
  have hlen : 0 < temp.length := List.length_pos.mpr h
  unfold overlapWindowW
  split_ifs with h50
  · apply List.length_pos.mp
    rw [List.length_drop]
    omega
  · apply List.length_pos.mp
    rw [List.length_drop]
    have h2 : temp.length / 2 < temp.length := Nat.div_lt_self hlen (by omega)
    omega

/-- Invariant of the word-splitting loop: provided the token counter never
counts a space-join above the running estimate (subadditivity over
space-joins and over the trailing-space padding) and every padded word fits
within `max_tokens - overlap_tokens`, every emitted word chunk stays within
`max_tokens`. -/
theorem wordSplitAux_bound (tc : Str → Nat) (max_tokens overlap_tokens : Nat)
    (Hpad : ∀ w : Str, tc w ≤ tc (w ++ [' ']))
    (Hjoin : ∀ (ws : List Str) (w : Str), ws ≠ [] →
      tc (joinSpace (ws ++ [w])) ≤ tc (joinSpace ws) + tc (w ++ [' ']))
    (Hword : ∀ w : Str, tc (w ++ [' ']) + overlap_tokens ≤ max_tokens) :
    ∀ (ws temp : List Str) (tok : Nat),
      (temp = [] → tok = 0) →
      (temp ≠ [] → tc (joinSpace temp) ≤ tok) →
      tok ≤ max_tokens →
      ∀ p ∈ wordSplitAux tc max_tokens overlap_tokens ws temp tok,
        tc p ≤ max_tokens := by
  intro ws
  induction ws with
  | nil =>
    intro temp tok _inv1 inv2 inv3 p hp
    rw [wordSplitAux] at hp
    split_ifs at hp with he
    · cases hp
    · have hpt : p = joinSpace temp := by simpa using hp
      have htemp : temp ≠ [] := fun hteq => he (by rw [hteq]; rfl)
      rw [hpt]
      exact le_trans (inv2 htemp) inv3
  | cons w ws ih =>
    intro temp tok inv1 inv2 inv3
    by_cases hcl : tok + tc (w ++ [' ']) > max_tokens ∧ ¬ temp.isEmpty
    · have htemp : temp ≠ [] := fun hteq => hcl.2 (by rw [hteq]; rfl)
      by_cases how : tc (joinSpace (overlapWindowW temp)) ≤ overlap_tokens
      · rw [wordSplitAux]
        simp only [if_pos hcl, if_pos how]
        intro p hp
        rcases List.mem_cons.mp hp with rfl | hp'
        · exact le_trans (inv2 htemp) inv3
        · refine ih (overlapWindowW temp ++ [w])
            (tc (joinSpace (overlapWindowW temp)) + tc (w ++ [' ']))
            (fun habs => by simp at habs) ?_ ?_ p hp'
          · intro _
            exact Hjoin _ w (overlapWindowW_ne_nil temp htemp)
          · have := Hword w
            omega
      · rw [wordSplitAux]
        simp only [if_pos hcl, if_neg how]
        intro p hp
        rcases List.mem_cons.mp hp with rfl | hp'
        · exact le_trans (inv2 htemp) inv3
        · refine ih [w] (tc (w ++ [' ']))
            (fun habs => by simp at habs) ?_ ?_ p hp'
          · intro _
            rw [joinSpace_single]
            exact Hpad w
          · have := Hword w
            omega
    · rw [wordSplitAux]
      simp only [if_neg hcl]
      intro p hp
      refine ih (temp ++ [w]) (tok + tc (w ++ [' ']))
        (fun habs => by simp at habs) ?_ ?_ p hp
      · intro _
        by_cases hte : temp = []
        · subst hte
          rw [List.nil_append, joinSpace_single]
          rw [inv1 rfl, Nat.zero_add]
          exact Hpad w
        · calc tc (joinSpace (temp ++ [w]))
              ≤ tc (joinSpace temp) + tc (w ++ [' ']) := Hjoin temp w hte
            _ ≤ tok + tc (w ++ [' ']) := by
              have := inv2 hte
              omega
      · by_cases hte : temp = []
        · rw [inv1 hte, Nat.zero_add]
          have := Hword w
          omega
        · have hne : ¬ (temp.isEmpty = true) := fun he => hte (by
            cases temp with
            | nil => rfl
            | cons a l => cases he)
          have : ¬ (tok + tc (w ++ [' ']) > max_tokens) :=
            fun hgt => hcl ⟨hgt, hne⟩
          omega

/-- C1 counterexample: with a character-level token counter, input "aa",
`max_tokens = 1`, `overlap_tokens = 0`, the single returned chunk "aa" has
token count 2 > max_tokens — the word-splitting path emits a chunk made of
one word whose token count exceeds the limit, unchecked. -/
theorem C1_counterexample :
    ("aa".data) ∈ smart_chunk_text (fun s : Str => s.length) ("aa".data) 1 0
    ∧ ¬ (List.length ("aa".data) ≤ 1) := by
  decide

/-- C1 (amended): every returned chunk's token count is ≤ max_tokens
provided the token counter is subadditive over space-joins and
trailing-space padding, every padded word's count fits within
`max_tokens - overlap_tokens`, and the degenerate character-prefix
fallback chunk fits; without the word bound, a chunk containing a single
oversized word may exceed max_tokens. -/
theorem C1_chunk_token_bound (tc : Str → Nat) (text : Str)
    (max_tokens overlap_tokens : Nat)
    (Hpad : ∀ w : Str, tc w ≤ tc (w ++ [' ']))
    (Hjoin : ∀ (ws : List Str) (w : Str), ws ≠ [] →
      tc (joinSpace (ws ++ [w])) ≤ tc (joinSpace ws) + tc (w ++ [' ']))
    (Hword : ∀ w : Str, tc (w ++ [' ']) + overlap_tokens ≤ max_tokens)
    (Hfb : tc (text.take (max_tokens * 3)) ≤ max_tokens) :
    ∀ c ∈ smart_chunk_text tc text max_tokens overlap_tokens,
      tc c ≤ max_tokens := by
  intro c hc
  simp only [smart_chunk_text] at hc
  split_ifs at hc with h0 h1
  · have : c = text := by simpa using hc
    rw [this]
    exact h0
  · have : c = text.take (max_tokens * 3) := by simpa using hc
    rw [this]
    exact Hfb
  · obtain ⟨l, hl, hcl⟩ := List.mem_flatten.mp hc
    obtain ⟨ch, _, rfl⟩ := List.mem_map.mp hl
    by_cases hok : tc ch ≤ max_tokens
    · rw [if_pos hok] at hcl
      have : c = ch := by simpa using hcl
      rw [this]
      exact hok
    · rw [if_neg hok] at hcl
      exact wordSplitAux_bound tc max_tokens overlap_tokens Hpad Hjoin Hword
        (splitWords ch) [] 0 (fun _ => rfl) (fun h => absurd rfl h)
        (Nat.zero_le _) c hcl

/-- C1 witness: the amended bound at a constant token counter (every
hypothesis holds), `max_tokens = 2`, `overlap_tokens = 0`, input "ab". -/
theorem C1_chunk_token_bound_witness :
    ((fun _ : Str => 1) (("a".data) ++ [' ']) + 0 ≤ 2)
    ∧ ∀ c ∈ smart_chunk_text (fun _ : Str => 1) ("ab".data) 2 0,
        (fun _ : Str => 1) c ≤ 2 :=
  ⟨by decide,
   C1_chunk_token_bound (fun _ : Str => 1) ("ab".data) 2 0
     (fun _ => Nat.le_refl 1)
     (fun _ _ _ => by show (1 : Nat) ≤ 1 + 1; omega)
     (fun _ => by show (1 : Nat) + 0 ≤ 2; omega)
     (by decide)⟩

end Cramwell
